import Mathlib

/-!
Shallow embedding of the go-timertxt library (files `sort.go` / `timer.go` /
`timerlist.go`) and verification of the specification claims about it.

Go strings are modelled as lists of characters (`Str`), Go `time.Time` values
as a record of calendar components plus a zone offset (`GoTime`), Go maps as
association lists kept key-unique by the update operation, a Go nil map as
`Option.none`, and Go panics (index out of range, assignment to an entry in a
nil map) as error values of an `Except` monad.
-/

set_option maxHeartbeats 1000000

namespace Timertxt

/-- Go strings, modelled as lists of characters. -/
abbrev Str := List Char

/-- Whitespace characters recognised by `strings.Fields` / the trim cutsets
used in the source (space, tab, newline, carriage return). -/
def isSpaceChar (c : Char) : Bool :=
  c = ' ' || c = '\t' || c = '\n' || c = '\r'

/-- `strings.Trim(s, cutset)`: remove leading and trailing characters that
belong to `cutset`. -/
def trimChars (cutset : Str) (s : Str) : Str :=
  ((s.dropWhile (fun c => c ∈ cutset)).reverse.dropWhile (fun c => c ∈ cutset)).reverse

/-- Cutset of `strings.Trim(text, "\t\n\r ")` in `ParseTimer`. -/
def parseCutset : Str := ['\t', '\n', '\r', ' ']

/-- Cutset of `strings.Trim(scanner.Text(), "\t\n\r")` in `LoadFromFile`
(note: it does not contain the space character). -/
def loadCutset : Str := ['\t', '\n', '\r']

/-- Helper for `fields`: accumulates the current (reversed) word. -/
def fieldsAux : Str → Str → List Str
  | [], acc => if acc = [] then [] else [acc.reverse]
  | c :: cs, acc =>
    if isSpaceChar c then
      if acc = [] then fieldsAux cs [] else acc.reverse :: fieldsAux cs []
    else fieldsAux cs (c :: acc)

/-- `strings.Fields`: split around runs of whitespace; no empty fields. -/
def fields (s : Str) : List Str := fieldsAux s []

/-- Helper for `splitChar`: accumulates the current (reversed) segment. -/
def splitCharAux (sep : Char) : Str → Str → List Str
  | [], acc => [acc.reverse]
  | c :: cs, acc =>
    if c = sep then acc.reverse :: splitCharAux sep cs []
    else splitCharAux sep cs (c :: acc)

/-- `strings.Split(s, sep)` for a one-character separator; always returns at
least one segment. -/
def splitChar (sep : Char) (s : Str) : List Str := splitCharAux sep s []

/-- `strings.Join(elems, " ")`. -/
def joinSpace : List Str → Str
  | [] => []
  | [w] => w
  | w :: ws => w ++ ' ' :: joinSpace ws

/-- Lexicographic (byte-wise, hence code-point-wise) string order used by
`sort.Strings`; this is the reflexive version `s1 <= s2`. -/
def lexLe : Str → Str → Bool
  | [], _ => true
  | _ :: _, [] => false
  | a :: as, b :: bs => if a = b then lexLe as bs else decide (a < b)

/-- Insert into a list sorted by `le`. -/
def insertLe (le : Str → Str → Bool) (a : Str) : List Str → List Str
  | [] => [a]
  | b :: l => if le a b then a :: b :: l else b :: insertLe le a l

/-- `sort.Strings`: sort ascending by the lexicographic order.  (The Go
standard sort is an unspecified comparison sort; any comparison sort yields
the same result on the total order on strings, so an insertion sort is a
faithful model.) -/
def sortStrings : List Str → List Str
  | [] => []
  | a :: l => insertLe lexLe a (sortStrings l)

/-- `true` iff the string contains two consecutive space characters. -/
def hasDoubleSpace : Str → Bool
  | [] => false
  | [_] => false
  | a :: b :: l => (a = ' ' && b = ' ') || hasDoubleSpace (b :: l)

end Timertxt

namespace Timertxt

/-! ## Dates: the subset of `time.Time` the library uses -/

/-- A `time.Time` value as produced by parsing an RFC 3339 timestamp: calendar
components plus the zone offset in minutes.  The Go zero time is
year 1, January 1, 00:00:00 UTC. -/
structure GoTime where
  year : Nat
  month : Nat
  day : Nat
  hour : Nat
  minute : Nat
  second : Nat
  offMin : Int
  deriving DecidableEq

/-- The Go zero `time.Time`. -/
def zeroGoTime : GoTime := ⟨1, 1, 1, 0, 0, 0, 0⟩

/-- `true` in leap years (proleptic Gregorian, as Go uses). -/
def isLeap (y : Nat) : Bool :=
  y % 4 = 0 && (y % 100 ≠ 0 || y % 400 = 0)

/-- Days in the months before month `m` (1-based) of a common year. -/
def cumDaysBefore (m : Nat) : Nat :=
  match m with
  | 1 => 0 | 2 => 31 | 3 => 59 | 4 => 90 | 5 => 120 | 6 => 151
  | 7 => 181 | 8 => 212 | 9 => 243 | 10 => 273 | 11 => 304 | _ => 334

/-- Number of days in month `m` of year `y`. -/
def daysInMonth (y m : Nat) : Nat :=
  match m with
  | 2 => if isLeap y then 29 else 28
  | 4 => 30 | 6 => 30 | 9 => 30 | 11 => 30
  | _ => 31

/-- Days from January 1 of year 1 to the given civil date (year ≥ 1). -/
def daysFromYearOne (y m d : Nat) : Nat :=
  let py := y - 1
  365 * py + py / 4 - py / 100 + py / 400
    + cumDaysBefore m + (if isLeap y && m > 2 then 1 else 0) + (d - 1)

/-- The absolute instant (seconds since the zero time, as an integer) that a
`GoTime` denotes; `time.Time` comparisons (`Before`, `After`, `IsZero`) are
instant comparisons. -/
def toInstant (t : GoTime) : Int :=
  (daysFromYearOne t.year t.month t.day * 86400
    + t.hour * 3600 + t.minute * 60 + t.second : Nat) - 60 * t.offMin

/-- `time.Time.IsZero`. -/
def GoTime.isZero (t : GoTime) : Bool := toInstant t = toInstant zeroGoTime

/-- `time.Time.Before`. -/
def GoTime.before (t1 t2 : GoTime) : Bool := toInstant t1 < toInstant t2

/-- `time.Time.After`. -/
def GoTime.after (t1 t2 : GoTime) : Bool := toInstant t2 < toInstant t1

/-! ## RFC 3339 formatting (`time.Time.Format(time.RFC3339)`) -/

/-- The decimal digit character for `n % 10`. -/
def digitChar (n : Nat) : Char :=
  match n % 10 with
  | 0 => '0' | 1 => '1' | 2 => '2' | 3 => '3' | 4 => '4'
  | 5 => '5' | 6 => '6' | 7 => '7' | 8 => '8' | _ => '9'

/-- Two-digit zero-padded decimal (faithful to `%02d` for values below 100,
which all in-range date components are). -/
def pad2 (n : Nat) : Str := [digitChar (n / 10), digitChar n]

/-- Four-digit zero-padded decimal (faithful to the RFC 3339 year field for
years below 10000). -/
def pad4 (n : Nat) : Str :=
  [digitChar (n / 1000), digitChar (n / 100), digitChar (n / 10), digitChar n]

/-- The zone-offset suffix of an RFC 3339 timestamp: `Z` for UTC, otherwise
a signed `hh:mm` offset. -/
def fmtOffset (off : Int) : Str :=
  if off = 0 then ['Z']
  else
    (if off < 0 then '-' else '+')
      :: (pad2 (off.natAbs / 60) ++ ':' :: pad2 (off.natAbs % 60))

/-- `time.Time.Format(time.RFC3339)`. -/
def fmtRFC3339 (t : GoTime) : Str :=
  pad4 t.year ++ '-' :: pad2 t.month ++ '-' :: pad2 t.day
    ++ 'T' :: pad2 t.hour ++ ':' :: pad2 t.minute ++ ':' :: pad2 t.second
    ++ fmtOffset t.offMin

/-! ## RFC 3339 parsing (`time.Parse(time.RFC3339, s)`) -/

/-- Value of a decimal digit character, if it is one. -/
def digitVal (c : Char) : Option Nat :=
  if '0' ≤ c ∧ c ≤ '9' then some (c.toNat - 48) else none

/-- Read exactly two decimal digits. -/
def read2 : Str → Option (Nat × Str)
  | c1 :: c2 :: rest => do
    let d1 ← digitVal c1
    let d2 ← digitVal c2
    pure (10 * d1 + d2, rest)
  | _ => none

/-- Read exactly four decimal digits. -/
def read4 : Str → Option (Nat × Str)
  | c1 :: c2 :: c3 :: c4 :: rest => do
    let d1 ← digitVal c1
    let d2 ← digitVal c2
    let d3 ← digitVal c3
    let d4 ← digitVal c4
    pure (1000 * d1 + 100 * d2 + 10 * d3 + d4, rest)
  | _ => none

/-- Require a specific character next. -/
def expectChar (c : Char) : Str → Option Str
  | d :: rest => if d = c then some rest else none
  | [] => none

/-- Read the RFC 3339 zone suffix: `Z` or `±hh:mm`; returns minutes. -/
def readOffset : Str → Option (Int × Str)
  | 'Z' :: rest => some (0, rest)
  | '+' :: rest => do
    let (h, rest) ← read2 rest
    let rest ← expectChar ':' rest
    let (m, rest) ← read2 rest
    pure ((h * 60 + m : Nat), rest)
  | '-' :: rest => do
    let (h, rest) ← read2 rest
    let rest ← expectChar ':' rest
    let (m, rest) ← read2 rest
    pure (-(h * 60 + m : Nat), rest)
  | _ => none

/-- `time.Parse(time.RFC3339, s)`: strict `YYYY-MM-DDTHH:MM:SS` followed by a
zone suffix, with component range validation as in the Go parser.
(Fractional seconds, tolerated by the Go parser, are not modelled; no input
in this development carries them.) -/
def parseRFC3339 (s : Str) : Option GoTime := do
  let (y, s) ← read4 s
  let s ← expectChar '-' s
  let (mo, s) ← read2 s
  let s ← expectChar '-' s
  let (d, s) ← read2 s
  let s ← expectChar 'T' s
  let (h, s) ← read2 s
  let s ← expectChar ':' s
  let (mi, s) ← read2 s
  let s ← expectChar ':' s
  let (sec, s) ← read2 s
  let (off, s) ← readOffset s
  if s = [] ∧ 1 ≤ mo ∧ mo ≤ 12 ∧ 1 ≤ d ∧ d ≤ daysInMonth y mo
      ∧ h ≤ 23 ∧ mi ≤ 59 ∧ sec ≤ 59 then
    pure ⟨y, mo, d, h, mi, sec, off⟩
  else none

end Timertxt

namespace Timertxt

/-! ## The Timer entity (`timer.go`) -/

/-- Outcomes of fallible operations.  The two `panic` constructors model Go
runtime panics (`index out of range`, `assignment to entry in nil map`); the
others model the error values the source constructs. -/
inductive GoErr where
  /-- "Timer marked finished, but failed to parse FinishDate: ..." -/
  | finishDateParse
  /-- "Unable to parse StartDate: ..." -/
  | startDateParse
  /-- Go runtime panic: index out of range. -/
  | indexOutOfRange
  /-- Go runtime panic: assignment to entry in nil map. -/
  | nilMapAssignment
  /-- "timer not found" -/
  | timerNotFound
  /-- "Unrecognized sort option" -/
  | unrecognizedSort
  deriving DecidableEq

/-- The `Timer` struct.  `AdditionalTags` is a Go map: `none` is the nil map
(the zero value, which `Timer{}` has), `some m` a non-nil map modelled as a
key-unique association list.  Field defaults are the Go zero values. -/
structure Timer where
  Id : Int := 0
  Original : Str := []
  StartDate : GoTime := zeroGoTime
  FinishDate : GoTime := zeroGoTime
  Finished : Bool := false
  Notes : Str := []
  Projects : List Str := []
  Contexts : List Str := []
  AdditionalTags : Option (List (Str × Str)) := none
  deriving DecidableEq

/-- Equality of `Except` outcomes is decidable (needed to evaluate the
model on concrete inputs). -/
instance {ε α : Type} [DecidableEq ε] [DecidableEq α] : DecidableEq (Except ε α) := fun x y =>
  match x, y with
  | .ok a, .ok b =>
    if h : a = b then isTrue (by rw [h]) else isFalse (by intro hc; cases hc; exact h rfl)
  | .error e, .error f =>
    if h : e = f then isTrue (by rw [h]) else isFalse (by intro hc; cases hc; exact h rfl)
  | .ok _, .error _ => isFalse (by intro hc; cases hc)
  | .error _, .ok _ => isFalse (by intro hc; cases hc)

/-- Go map assignment `m[k] = v`: overwrite the entry if the key is present,
otherwise add it. -/
def mapUpdate (m : List (Str × Str)) (k v : Str) : List (Str × Str) :=
  match m with
  | [] => [(k, v)]
  | (k0, v0) :: rest => if k0 = k then (k, v) :: rest else (k0, v0) :: mapUpdate rest k v

/-- Go map read `m[k]` (first, and by key-uniqueness only, binding). -/
def mapLookup (m : List (Str × Str)) (k : Str) : Option Str :=
  match m with
  | [] => none
  | (k0, v0) :: rest => if k0 = k then some v0 else mapLookup rest k

/-- The token-classification loop of `ParseTimer` (the `for _, v := range
originalParts` loop): contexts, projects, additional tags, notes buffer.
Assigning a tag while `AdditionalTags` is the nil map is the Go panic
`assignment to entry in nil map`. -/
def parseTokens : List Str → Timer → List Str → Except GoErr (Timer × List Str)
  | [], timer, notes => .ok (timer, notes)
  | v :: rest, timer, notes =>
    -- strings.HasPrefix(v, "@") / strings.TrimPrefix(v, "@"), and likewise for "+"
    if v.head? = some '@' then
      parseTokens rest { timer with Contexts := timer.Contexts ++ [v.drop 1] } notes
    else if v.head? = some '+' then
      parseTokens rest { timer with Projects := timer.Projects ++ [v.drop 1] } notes
    else
      if ':' ∈ v then
        match splitChar ':' v with
        | s0 :: s1 :: _ =>
          if s0 ≠ [] ∧ s1 ≠ [] then
            match timer.AdditionalTags with
            | none => .error .nilMapAssignment
            | some m =>
              parseTokens rest { timer with AdditionalTags := some (mapUpdate m s0 s1) } notes
          else parseTokens rest timer notes
        | _ =>
          -- unreachable: splitting a string that contains the separator
          -- yields at least two segments; `tagPts[1]` would otherwise panic
          .error .indexOutOfRange
      else parseTokens rest timer (notes ++ [v])

/-- The start-date step of `ParseTimer` and what follows it: parse
`originalParts[0]` as the start date (indexing an empty slice is a panic),
run the classification loop on the remaining tokens, join the notes. -/
def parseStart (timer : Timer) : List Str → Except GoErr Timer
  | [] => .error .indexOutOfRange
  | q0 :: qrest =>
    match parseRFC3339 q0 with
    | none => .error .startDateParse
    | some sd =>
      match parseTokens qrest { timer with StartDate := sd } [] with
      | .error e => .error e
      | .ok (t, notes) => .ok { t with Notes := joinSpace notes }

/-- `ParseTimer(text)`: trim, split into fields, handle the completion
marker and finish date, then the start date and the token loop.  Indexing
`originalParts[0]` or `originalParts[1]` beyond the slice length is the Go
runtime panic, modelled as `GoErr.indexOutOfRange`. -/
def ParseTimer (text : Str) : Except GoErr Timer :=
  let original := trimChars parseCutset text
  let originalParts := fields original
  let timer0 : Timer := { Original := original }
  match originalParts with
  | [] => .error .indexOutOfRange
  | p0 :: rest =>
    if p0 = ['x'] then
      match rest with
      | [] => .error .indexOutOfRange
      | p1 :: rest1 =>
        match parseRFC3339 p1 with
        | none => .error .finishDateParse
        | some fd => parseStart { timer0 with Finished := true, FinishDate := fd } rest1
    else parseStart timer0 (p0 :: rest)

/-- The text built by `Timer.String()`: completion marker and finish date if
finished, start date, notes, then contexts, projects and additional tags,
each section sorted.  (The `len(...) > 0` guards in the source are no-ops in
this formulation: an empty section contributes the empty string either way.) -/
def timerText (timer : Timer) : Str :=
  (if timer.Finished then
    ['x', ' ']
      ++ (if ¬ timer.FinishDate.isZero then fmtRFC3339 timer.FinishDate ++ [' '] else [])
  else [])
  ++ fmtRFC3339 timer.StartDate ++ [' ']
  ++ timer.Notes
  ++ ((sortStrings timer.Contexts).map (fun c => ' ' :: '@' :: c)).flatten
  ++ ((sortStrings timer.Projects).map (fun p => ' ' :: '+' :: p)).flatten
  ++ ((sortStrings ((timer.AdditionalTags.getD []).map Prod.fst)).map
      (fun k => ' ' :: (k ++ ':' :: (mapLookup (timer.AdditionalTags.getD []) k).getD []))).flatten

/-- The receiver as left behind by `Timer.String()`.  The method has a value
receiver, but `sort.Strings` reorders the shared backing arrays of the
`Contexts` and `Projects` slices in place, so the caller observes the sorted
slices; all other fields are untouched. -/
def sortedReceiver (timer : Timer) : Timer :=
  { timer with
    Contexts := sortStrings timer.Contexts
    Projects := sortStrings timer.Projects }

/-- `Timer.String()` as a state transformer: the produced text together with
the observable post-state of the receiver. -/
def timerString (timer : Timer) : Str × Timer :=
  (timerText timer, sortedReceiver timer)

/-! ## The TimerList collection (`timerlist.go`) -/

/-- `TimerList` is a slice of timers. -/
abbrev TimerList := List Timer

/-- The text built by `TimerList.String()`: each timer followed by a newline. -/
def timerListText (timerlist : TimerList) : Str :=
  (timerlist.map (fun t => timerText t ++ ['\n'])).flatten

/-- `TimerList.String()` as a state transformer (each element suffers the
`Timer.String()` slice-sorting side effect). -/
def timerListString (timerlist : TimerList) : Str × TimerList :=
  (timerListText timerlist, timerlist.map sortedReceiver)

/-- `TimerList.AddTimer`: sets `timer.Id = 1`; the renumbering loop
`for _, t := range *timerlist { t.Id++ }` increments the per-iteration copy
`t` and therefore leaves every element unchanged; the append of a zero
`Timer`, the overlapping `copy` and the head assignment together prepend
`timer`. -/
def AddTimer (timerlist : TimerList) (timer : Timer) : TimerList :=
  { timer with Id := 1 } :: timerlist

/-- The filtering loop of `RemoveTimerById`: kept elements in order, plus
whether a matching id was found. -/
def removeLoop (id : Int) : TimerList → TimerList × Bool
  | [] => ([], false)
  | t :: rest =>
    let r := removeLoop id rest
    if t.Id ≠ id then (t :: r.1, r.2) else (r.1, true)

/-- `TimerList.RemoveTimerById` as a state transformer: on success the list
becomes the filtered list; on failure (`timer not found`) the list is left
as it was. -/
def RemoveTimerById (timerlist : TimerList) (id : Int) : TimerList × Option GoErr :=
  let r := removeLoop id timerlist
  if r.2 then (r.1, none) else (timerlist, some .timerNotFound)

/-- The scanning loop of `LoadFromFile`, carrying the running `timerId`:
trim each line with the `"\t\n\r"` cutset, skip lines that are then empty,
parse the rest, abort on the first failure, assign sequential ids. -/
def loadLinesFrom : List Str → Int → Except GoErr TimerList
  | [], _ => .ok []
  | line :: rest, timerId =>
    let text := trimChars loadCutset line
    if text = [] then loadLinesFrom rest timerId
    else
      match ParseTimer text with
      | .error e => .error e
      | .ok timer =>
        match loadLinesFrom rest (timerId + 1) with
        | .error e => .error e
        | .ok l => .ok ({ timer with Id := timerId } :: l)

/-- `TimerList.LoadFromFile`, with the file modelled as its list of scanned
lines.  The method first empties the receiver, so the result never depends
on the previous contents. -/
def LoadFromFile (_timerlist : TimerList) (lines : List Str) : Except GoErr TimerList :=
  loadLinesFrom lines 1

/-! ## The sort engine (`sort.go`) -/

def SORT_UNFINISHED_START : Nat := 0

def SORT_START_DATE_ASC : Nat := 1

def SORT_START_DATE_DESC : Nat := 2

def SORT_FINISH_DATE_ASC : Nat := 3

def SORT_FINISH_DATE_DESC : Nat := 4

/-- `sortByDate(asc, date1, date2)` from `sort.go`. -/
def sortByDate (asc : Bool) (date1 date2 : GoTime) : Bool :=
  if asc then
    if !date1.isZero && !date2.isZero then date1.before date2
    else !date2.isZero
  else
    if !date1.isZero && !date2.isZero then date1.after date2
    else date2.isZero

/-- Insertion into a list, moving past elements `b` with `lt b a`. -/
def insertByLt (lt : Timer → Timer → Bool) (a : Timer) : TimerList → TimerList
  | [] => [a]
  | b :: l => if lt b a then b :: insertByLt lt a l else a :: b :: l

/-- `TimerList.sortBy`: `sort.Sort` with the given `Less`, modelled as an
insertion sort (the standard sort is an unspecified comparison sort; the
placement properties proved below hold for every `Less`-ordered
permutation). -/
def sortBy (lt : Timer → Timer → Bool) : TimerList → TimerList
  | [] => []
  | a :: l => insertByLt lt a (sortBy lt l)

/-- `TimerList.sortByStartDate`. -/
def sortByStartDate (order : Nat) (timerlist : TimerList) : TimerList :=
  sortBy (fun t1 t2 => sortByDate (order == SORT_START_DATE_ASC) t1.StartDate t2.StartDate)
    timerlist

/-- `TimerList.sortByFinishDate`. -/
def sortByFinishDate (order : Nat) (timerlist : TimerList) : TimerList :=
  sortBy (fun t1 t2 => sortByDate (order == SORT_FINISH_DATE_ASC) t1.FinishDate t2.FinishDate)
    timerlist

/-- `TimerList.sortByUnfinishedThenStart`. -/
def sortByUnfinishedThenStart (timerlist : TimerList) : TimerList :=
  sortBy (fun t1 t2 =>
    if t1.FinishDate.isZero && !t2.FinishDate.isZero then true
    else if t2.FinishDate.isZero && !t1.FinishDate.isZero then false
    else sortByDate false t1.StartDate t2.StartDate) timerlist

/-- `TimerList.Sort(sortFlag)` (named `sortList` here because `Sort` is a
reserved word in Lean). -/
def sortList (timerlist : TimerList) (sortFlag : Nat) : Except GoErr TimerList :=
  if sortFlag = SORT_UNFINISHED_START then .ok (sortByUnfinishedThenStart timerlist)
  else if sortFlag = SORT_START_DATE_ASC ∨ sortFlag = SORT_START_DATE_DESC then
    .ok (sortByStartDate sortFlag timerlist)
  else if sortFlag = SORT_FINISH_DATE_ASC ∨ sortFlag = SORT_FINISH_DATE_DESC then
    .ok (sortByFinishDate sortFlag timerlist)
  else .error .unrecognizedSort

end Timertxt

namespace Timertxt

/-! ## Spec-worded token classification (for comparison with `parseTokens`) -/

/-- The segment of `v` before its first colon. -/
def firstColonSeg (v : Str) : Str := v.takeWhile (fun c => c ≠ ':')

/-- What follows the first colon of `v`. -/
def afterFirstColon (v : Str) : Str := (v.dropWhile (fun c => c ≠ ':')).drop 1

/-- The segment of `v` between its first and second colon (the whole
remainder when there is no second colon). -/
def secondColonSeg (v : Str) : Str := (afterFirstColon v).takeWhile (fun c => c ≠ ':')

/-- The token-classification loop, worded as in the amended claim: tokens
starting with `@` or `+` go to contexts or projects; a token containing a
colon whose first two colon-separated segments are both non-empty stores
(first segment, second segment) into the tags, last wins, the rest of the
token being discarded; a token containing a colon that fails that test is
silently dropped; every other token is appended to the notes buffer. -/
def specProcessTokens : List Str → Timer → List Str → Timer × List Str
  | [], timer, notes => (timer, notes)
  | v :: rest, timer, notes =>
    if v.head? = some '@' then
      specProcessTokens rest { timer with Contexts := timer.Contexts ++ [v.drop 1] } notes
    else if v.head? = some '+' then
      specProcessTokens rest { timer with Projects := timer.Projects ++ [v.drop 1] } notes
    else
      if ':' ∈ v then
        if firstColonSeg v ≠ [] ∧ secondColonSeg v ≠ [] then
          let m := timer.AdditionalTags.getD []
          let m2 := mapUpdate m (firstColonSeg v) (secondColonSeg v)
          specProcessTokens rest { timer with AdditionalTags := some m2 } notes
        else specProcessTokens rest timer notes
      else specProcessTokens rest timer (notes ++ [v])

/-! ## Concrete inputs used by the claim theorems -/

/-- `2019-02-15T06:00:00-06:00` as a `GoTime`. -/
def d0600 : GoTime := ⟨2019, 2, 15, 6, 0, 0, -360⟩

/-- `2019-02-15T07:00:00-06:00` as a `GoTime`. -/
def d0700 : GoTime := ⟨2019, 2, 15, 7, 0, 0, -360⟩

/-- `2019-02-15T10:00:00-06:00` as a `GoTime`. -/
def d1000 : GoTime := ⟨2019, 2, 15, 10, 0, 0, -360⟩

/-- `2019-02-15T11:43:00-06:00` as a `GoTime`. -/
def d1143 : GoTime := ⟨2019, 2, 15, 11, 43, 0, -360⟩

/-- The token `2019-02-15T06:00:00-06:00`. -/
def tok0600 : Str := ['2', '0', '1', '9', '-', '0', '2', '-', '1', '5', 'T', '0', '6', ':', '0', '0', ':', '0', '0', '-', '0', '6', ':', '0', '0']

/-- The token `2019-02-15T07:00:00-06:00`. -/
def tok0700 : Str := ['2', '0', '1', '9', '-', '0', '2', '-', '1', '5', 'T', '0', '7', ':', '0', '0', ':', '0', '0', '-', '0', '6', ':', '0', '0']

/-- The token `2019-02-15T10:00:00-06:00`. -/
def tok1000 : Str := ['2', '0', '1', '9', '-', '0', '2', '-', '1', '5', 'T', '1', '0', ':', '0', '0', ':', '0', '0', '-', '0', '6', ':', '0', '0']

/-- The example line of the C2 claim. -/
def c2Line : Str := ['x', ' ', '2', '0', '1', '9', '-', '0', '2', '-', '1', '5', 'T', '1', '0', ':', '0', '0', ':', '0', '0', '-', '0', '6', ':', '0', '0', ' ', '2', '0', '1', '9', '-', '0', '2', '-', '1', '5', 'T', '0', '6', ':', '0', '0', ':', '0', '0', '-', '0', '6', ':', '0', '0', ' ', 'C', 'r', 'e', 'a', 't', 'i', 'n', 'g', ' ', 'G', 'o', ' ', 'L', 'i', 'b', 'r', 'a', 'r', 'y', ' ', 'R', 'e', 'p', 'o', ' ', '@', 'h', 'o', 'm', 'e', ' ', '@', 'p', 'e', 'r', 's', 'o', 'n', 'a', 'l', ' ', '+', 't', 'i', 'm', 'e', 'r', 't', 'x', 't', ' ', 'c', 'u', 's', 't', 'o', 'm', 'T', 'a', 'g', '1', ':', 'I', 'm', 'p', 'o', 'r', 't', 'a', 'n', 't', '!', ' ', 'd', 'u', 'e', ':', 'T', 'o', 'd', 'a', 'y']

/-- A well-formed timer carrying one additional tag (`due:Today`). -/
def c1Timer : Timer :=
  { StartDate := d0600
    Notes := ['a']
    AdditionalTags := some [(['d', 'u', 'e'], ['T', 'o', 'd', 'a', 'y'])] }

/-- The line `<start date> a:` — its last token contains a colon with an
empty second segment. -/
def c6Line : Str := tok0600 ++ [' ', 'a', ':']

/-- A timer with empty Notes and nothing else. -/
def c7EmptyNotes : Timer := { StartDate := d1143 }

/-- A timer with empty Notes and one context. -/
def c7EmptyNotesCtx : Timer := { StartDate := d1143, Contexts := [['h', 'o', 'm', 'e']] }

/-- A timer whose StartDate and FinishDate are the zero time. -/
def zeroDatesTimer : Timer := { Id := 1 }

/-- A timer with non-zero StartDate and FinishDate. -/
def datedTimer : Timer := { Id := 2, StartDate := d0600, FinishDate := d1000 }

/-- The lines of the C8 load example: two valid entries around a blank line. -/
def c8Lines : List Str := [tok0600 ++ [' ', 'a'], [], tok0700 ++ [' ', 'b']]

/-- A timer with non-empty space-free notes, one context, one project and
one additional tag (used as the C7 witness input). -/
def c7GoodTimer : Timer :=
  { StartDate := d1143
    Notes := ['a', 'b']
    Contexts := [['h', 'o', 'm', 'e']]
    Projects := [['p']]
    AdditionalTags := some [(['d', 'u', 'e'], ['T', 'o', 'd', 'a', 'y'])] }

/-- A fresh timer passed to `AddTimer` in the C4 example. -/
def c4NewTimer : Timer := { Notes := ['n'] }

end Timertxt

namespace Timertxt

/-! ## Helper lemmas -/

/-- If no element has the sought id, the `RemoveTimerById` loop keeps every
element and reports the id as not found. -/
theorem removeLoop_not_found {id : Int} :
    ∀ {l : TimerList}, (∀ t ∈ l, t.Id ≠ id) → removeLoop id l = (l, false) := by
  intro l
  induction l with
  | nil => intro _; rfl
  | cons t rest ih =>
    intro h
    have ht : t.Id ≠ id := h t (by simp)
    have hrest := ih (fun u hu => h u (by simp [hu]))
    simp [removeLoop, hrest, ht]

/-! ## Claim theorems -/

/-- C1: the round-trip `ParseTimer (t.String())` is claimed to reconstruct
every well-formed timer `t`.  It does not: for the well-formed timer
`c1Timer`, which carries one additional tag, parsing the formatted text
panics with an assignment to the nil `AdditionalTags` map (which
`ParseTimer` never initialises). -/
theorem C1_parse_format_nil_map_panic :
    ParseTimer (timerText c1Timer) = .error .nilMapAssignment := by decide

/-- C2: parsing the example line is claimed to succeed with the given
fields; instead the first `key:value` token (`customTag1:Important!`)
panics with an assignment to the nil `AdditionalTags` map. -/
theorem C2_parse_example_nil_map_panic :
    ParseTimer c2Line = .error .nilMapAssignment := by decide

/-- C3: `ParseTimer` is claimed to return a parse error (and never index out
of bounds) on empty input, whitespace-only input, a lone completion marker,
and a finished line with no start-date token.  On all four the code instead
performs an out-of-bounds slice index (a runtime panic). -/
theorem C3_malformed_lines_panic :
    ParseTimer [] = .error .indexOutOfRange ∧
    ParseTimer [' ', ' ', '\t'] = .error .indexOutOfRange ∧
    ParseTimer ['x'] = .error .indexOutOfRange ∧
    ParseTimer (['x', ' '] ++ tok1000) = .error .indexOutOfRange :=
  ⟨by decide, by decide, by decide, by decide⟩

/-- C4: `AddTimer` is claimed to append with id `max + 1` (here 4) leaving
existing ids unique.  On the collection with ids `{1, 3}` the code instead
prepends the new timer with id 1 and leaves the existing ids unchanged (the
renumbering loop increments a copy), so id 1 is duplicated. -/
theorem C4_addTimer_prepends_duplicate_id :
    AddTimer [{ Id := 1 }, { Id := 3 }] c4NewTimer
      = [{ c4NewTimer with Id := 1 }, { Id := 1 }, { Id := 3 }] ∧
    (AddTimer [{ Id := 1 }, { Id := 3 }] c4NewTimer).map (fun t => t.Id) = [1, 1, 3] :=
  ⟨by decide, by decide⟩

/-- C5 counterexample: on a two-element list with exactly one zero start
date, ascending sort keeps the zero-date entry FIRST (the claim says last)
and descending sort puts it LAST (the claim says first); the analogous
finish-date sorts behave the same way. -/
theorem C5_zero_date_placement_cex :
    zeroDatesTimer.StartDate.isZero = true ∧
    datedTimer.StartDate.isZero = false ∧
    sortByStartDate SORT_START_DATE_ASC [zeroDatesTimer, datedTimer]
      = [zeroDatesTimer, datedTimer] ∧
    sortByStartDate SORT_START_DATE_DESC [zeroDatesTimer, datedTimer]
      = [datedTimer, zeroDatesTimer] ∧
    sortByFinishDate SORT_FINISH_DATE_ASC [zeroDatesTimer, datedTimer]
      = [zeroDatesTimer, datedTimer] ∧
    sortByFinishDate SORT_FINISH_DATE_DESC [zeroDatesTimer, datedTimer]
      = [datedTimer, zeroDatesTimer] :=
  ⟨by decide, by decide, by decide, by decide, by decide, by decide⟩

/-- C6 counterexample: the token `a:` contains a colon but its second
segment is empty; the claim says such a token is appended to the notes
buffer, yet the code drops it entirely: the parsed timer has empty Notes,
no contexts, no projects and a nil tag map. -/
theorem C6_colon_token_dropped_cex :
    ParseTimer c6Line = .ok { Original := c6Line, StartDate := d0600 } ∧
    ({ Original := c6Line, StartDate := d0600 } : Timer).Notes = [] ∧
    ({ Original := c6Line, StartDate := d0600 } : Timer).AdditionalTags = none :=
  ⟨by decide, rfl, rfl⟩

/-- C7 counterexample: with empty Notes the formatted text ends in a space
(and with a context present it contains a double space), contradicting the
claim that empty optional sections contribute no stray spaces. -/
theorem C7_stray_space_cex :
    (timerText c7EmptyNotes).getLast? = some ' ' ∧
    hasDoubleSpace (timerText c7EmptyNotesCtx) = true :=
  ⟨by decide, by decide⟩

/-- C9: removing a nonexistent id fails with `timer not found` and leaves
the collection exactly as it was. -/
theorem C9_remove_missing_id (timerlist : TimerList) (id : Int)
    (h : ∀ t ∈ timerlist, t.Id ≠ id) :
    RemoveTimerById timerlist id = (timerlist, some .timerNotFound) := by
  simp [RemoveTimerById, removeLoop_not_found h]

/-- Witness for C9 at a concrete input. -/
theorem C9_remove_missing_id_witness :
    RemoveTimerById [{ Id := 1 }] 2 = ([{ Id := 1 }], some GoErr.timerNotFound) :=
  C9_remove_missing_id [{ Id := 1 }] 2 (by decide)

end Timertxt

namespace Timertxt

/-! ## Sorting lemmas for C5 -/

/-- Insertion produces a permutation of consing. -/
theorem insertByLt_perm (lt : Timer → Timer → Bool) (a : Timer) :
    ∀ l : TimerList, (insertByLt lt a l).Perm (a :: l) := by
  intro l
  induction l with
  | nil => simp [insertByLt]
  | cons b l ih =>
    by_cases h : lt b a = true
    · simpa [insertByLt, h] using (ih.cons b).trans (List.Perm.swap a b l)
    · simp [insertByLt, h]

/-- The insertion sort permutes its input. -/
theorem sortBy_perm (lt : Timer → Timer → Bool) :
    ∀ l : TimerList, (sortBy lt l).Perm l := by
  intro l
  induction l with
  | nil => simp [sortBy]
  | cons a l ih => exact (insertByLt_perm lt a (sortBy lt l)).trans (ih.cons a)

/-- An element nothing is `lt`-below is inserted at the head. -/
theorem insertByLt_eq_cons (lt : Timer → Timer → Bool) (a : Timer)
    (h : ∀ b, lt b a = false) : ∀ l : TimerList, insertByLt lt a l = a :: l := by
  intro l
  cases l with
  | nil => rfl
  | cons b l => simp [insertByLt, h b]

/-- An element everything is `lt`-below is inserted at the end. -/
theorem insertByLt_eq_append (lt : Timer → Timer → Bool) (a : Timer)
    (h : ∀ b, lt b a = true) : ∀ l : TimerList, insertByLt lt a l = l ++ [a] := by
  intro l
  induction l with
  | nil => rfl
  | cons b l ih => simp [insertByLt, h b, ih]

/-- Inserting `a` into a list ending in `z` keeps `z` last when `a` does not
go past `z` (that is, when `lt z a` is false). -/
theorem insertByLt_last (lt : Timer → Timer → Bool) (a z : Timer)
    (hza : lt z a = false) :
    ∀ r : TimerList, ∃ r2, insertByLt lt a (r ++ [z]) = r2 ++ [z] ∧ r2.Perm (a :: r) := by
  intro r
  induction r with
  | nil => exact ⟨[a], by simp [insertByLt, hza], List.Perm.refl _⟩
  | cons b r ih =>
    by_cases h : lt b a = true
    · obtain ⟨r2, hr2, hp⟩ := ih
      exact ⟨b :: r2, by simp [insertByLt, h, hr2],
        (hp.cons b).trans (List.Perm.swap a b r)⟩
    · exact ⟨a :: b :: r, by simp [insertByLt, h], List.Perm.refl _⟩

/-- In ascending mode nothing is strictly below a zero date. -/
theorem sortByDate_asc_zero_right (d1 d2 : GoTime) (h : d2.isZero = true) :
    sortByDate true d1 d2 = false := by
  simp [sortByDate, h]

/-- In ascending mode a zero date is strictly below every non-zero date. -/
theorem sortByDate_asc_zero_left (d1 d2 : GoTime) (h1 : d1.isZero = true)
    (h2 : d2.isZero = false) : sortByDate true d1 d2 = true := by
  simp [sortByDate, h1, h2]

/-- In descending mode everything is strictly below a zero date. -/
theorem sortByDate_desc_zero_right (d1 d2 : GoTime) (h : d2.isZero = true) :
    sortByDate false d1 d2 = true := by
  simp [sortByDate, h]

/-- In descending mode a zero date is not below any non-zero date. -/
theorem sortByDate_desc_zero_left (d1 d2 : GoTime) (h1 : d1.isZero = true)
    (h2 : d2.isZero = false) : sortByDate false d1 d2 = false := by
  simp [sortByDate, h1, h2]

/-- Ascending date sort puts the unique zero-date element first. -/
theorem sortBy_asc_zero_head (f : Timer → GoTime) (l1 l2 : TimerList) (z : Timer)
    (hz : (f z).isZero = true) (h : ∀ t ∈ l1 ++ l2, (f t).isZero = false) :
    ∃ r, sortBy (fun a b => sortByDate true (f a) (f b)) (l1 ++ z :: l2) = z :: r
      ∧ r.Perm (l1 ++ l2) := by
  induction l1 with
  | nil =>
    refine ⟨sortBy (fun a b => sortByDate true (f a) (f b)) l2, ?_, sortBy_perm _ l2⟩
    simp only [List.nil_append, sortBy]
    exact insertByLt_eq_cons _ z (fun b => sortByDate_asc_zero_right (f b) (f z) hz) _
  | cons a l1 ih =>
    have hsub : ∀ t ∈ l1 ++ l2, (f t).isZero = false := by
      intro t ht
      refine h t ?_
      rcases List.mem_append.mp ht with h1 | h2
      · exact List.mem_append.mpr (Or.inl (List.mem_cons_of_mem a h1))
      · exact List.mem_append.mpr (Or.inr h2)
    obtain ⟨r, hr, hp⟩ := ih hsub
    have ha : (f a).isZero = false := h a (by simp)
    refine ⟨insertByLt (fun a b => sortByDate true (f a) (f b)) a r, ?_, ?_⟩
    · rw [List.cons_append, sortBy, hr]
      simp [insertByLt, sortByDate_asc_zero_left (f z) (f a) hz ha]
    · exact (insertByLt_perm _ a r).trans (hp.cons a)

/-- Descending date sort puts the unique zero-date element last. -/
theorem sortBy_desc_zero_last (f : Timer → GoTime) (l1 l2 : TimerList) (z : Timer)
    (hz : (f z).isZero = true) (h : ∀ t ∈ l1 ++ l2, (f t).isZero = false) :
    ∃ r, sortBy (fun a b => sortByDate false (f a) (f b)) (l1 ++ z :: l2) = r ++ [z]
      ∧ r.Perm (l1 ++ l2) := by
  induction l1 with
  | nil =>
    refine ⟨sortBy (fun a b => sortByDate false (f a) (f b)) l2, ?_, sortBy_perm _ l2⟩
    simp only [List.nil_append, sortBy]
    exact insertByLt_eq_append _ z (fun b => sortByDate_desc_zero_right (f b) (f z) hz) _
  | cons a l1 ih =>
    have hsub : ∀ t ∈ l1 ++ l2, (f t).isZero = false := by
      intro t ht
      refine h t ?_
      rcases List.mem_append.mp ht with h1 | h2
      · exact List.mem_append.mpr (Or.inl (List.mem_cons_of_mem a h1))
      · exact List.mem_append.mpr (Or.inr h2)
    obtain ⟨r, hr, hp⟩ := ih hsub
    have ha : (f a).isZero = false := h a (by simp)
    obtain ⟨r2, hr2, hp2⟩ :=
      insertByLt_last (fun a b => sortByDate false (f a) (f b)) a z
        (sortByDate_desc_zero_left (f z) (f a) hz ha) r
    refine ⟨r2, ?_, ?_⟩
    · rw [List.cons_append, sortBy, hr]
      exact hr2
    · exact hp2.trans (hp.cons a)

/-- C5 (amended): when exactly one entry has a zero date in the sorted
field, ascending sort (`StartDateAsc`/`FinishDateAsc`) places the zero-date
entry FIRST and descending sort (`StartDateDesc`/`FinishDateDesc`) places
it LAST (the claim stated the opposite placement). -/
theorem C5_zero_date_placement :
    (∀ (l1 l2 : TimerList) (z : Timer),
      z.StartDate.isZero = true → (∀ t ∈ l1 ++ l2, t.StartDate.isZero = false) →
      (∃ r, sortByStartDate SORT_START_DATE_ASC (l1 ++ z :: l2) = z :: r
        ∧ r.Perm (l1 ++ l2)) ∧
      (∃ r, sortByStartDate SORT_START_DATE_DESC (l1 ++ z :: l2) = r ++ [z]
        ∧ r.Perm (l1 ++ l2))) ∧
    (∀ (l1 l2 : TimerList) (z : Timer),
      z.FinishDate.isZero = true → (∀ t ∈ l1 ++ l2, t.FinishDate.isZero = false) →
      (∃ r, sortByFinishDate SORT_FINISH_DATE_ASC (l1 ++ z :: l2) = z :: r
        ∧ r.Perm (l1 ++ l2)) ∧
      (∃ r, sortByFinishDate SORT_FINISH_DATE_DESC (l1 ++ z :: l2) = r ++ [z]
        ∧ r.Perm (l1 ++ l2))) := by
  constructor
  · intro l1 l2 z hz h
    exact ⟨sortBy_asc_zero_head (fun t => t.StartDate) l1 l2 z hz h,
      sortBy_desc_zero_last (fun t => t.StartDate) l1 l2 z hz h⟩
  · intro l1 l2 z hz h
    exact ⟨sortBy_asc_zero_head (fun t => t.FinishDate) l1 l2 z hz h,
      sortBy_desc_zero_last (fun t => t.FinishDate) l1 l2 z hz h⟩

/-- Witness for C5 at a concrete input. -/
theorem C5_zero_date_placement_witness :
    (∃ r, sortByStartDate SORT_START_DATE_ASC [zeroDatesTimer, datedTimer]
      = zeroDatesTimer :: r ∧ r.Perm [datedTimer]) ∧
    (∃ r, sortByFinishDate SORT_FINISH_DATE_DESC [zeroDatesTimer, datedTimer]
      = r ++ [zeroDatesTimer] ∧ r.Perm [datedTimer]) :=
  ⟨(C5_zero_date_placement.1 [] [datedTimer] zeroDatesTimer (by decide) (by decide)).1,
   (C5_zero_date_placement.2 [] [datedTimer] zeroDatesTimer (by decide) (by decide)).2⟩

end Timertxt

namespace Timertxt

/-! ## Splitting lemmas for C6 -/

/-- `takeWhile (· ≠ sep)` keeps everything when `sep` does not occur. -/
theorem takeWhile_ne_of_not_mem (sep : Char) :
    ∀ v : Str, sep ∉ v → v.takeWhile (fun c => c ≠ sep) = v := by
  intro v h
  rw [List.takeWhile_eq_self_iff]
  intro x hx
  simp only [ne_eq, decide_eq_true_eq]
  exact fun he => h (he ▸ hx)

/-- Splitting a string free of the separator yields one segment. -/
theorem splitCharAux_of_not_mem (sep : Char) :
    ∀ (v acc : Str), sep ∉ v → splitCharAux sep v acc = [acc.reverse ++ v] := by
  intro v
  induction v with
  | nil => intro acc _; simp [splitCharAux]
  | cons c cs ih =>
    intro acc h
    have hc : c ≠ sep := fun hc => h (by simp [hc])
    have hcs : sep ∉ cs := fun hm => h (by simp [hm])
    simp [splitCharAux, hc, ih (c :: acc) hcs]

/-- Splitting a string containing the separator: the first segment is the
prefix before the first occurrence, and the remaining segments are the split
of what follows that occurrence. -/
theorem splitCharAux_of_mem (sep : Char) :
    ∀ (v acc : Str), sep ∈ v →
      splitCharAux sep v acc
        = (acc.reverse ++ v.takeWhile (fun c => c ≠ sep))
          :: splitChar sep ((v.dropWhile (fun c => c ≠ sep)).drop 1) := by
  intro v
  induction v with
  | nil => intro acc h; cases h
  | cons c cs ih =>
    intro acc h
    by_cases hc : c = sep
    · subst hc
      simp [splitCharAux, List.takeWhile, List.dropWhile, splitChar]
    · have hcs : sep ∈ cs := by
        rcases List.mem_cons.mp h with h1 | h2
        · exact absurd h1.symm hc
        · exact h2
      simp [splitCharAux, hc, ih (c :: acc) hcs, List.takeWhile, List.dropWhile]

/-- The head of any split is the prefix before the first separator. -/
theorem splitChar_head (sep : Char) (v : Str) :
    ∃ tail, splitChar sep v = v.takeWhile (fun c => c ≠ sep) :: tail := by
  by_cases h : sep ∈ v
  · exact ⟨_, splitCharAux_of_mem sep v [] h⟩
  · refine ⟨[], ?_⟩
    unfold splitChar
    rw [splitCharAux_of_not_mem sep v [] h, takeWhile_ne_of_not_mem sep v h]
    rfl

/-- For a token containing a colon, the split starts with the segment before
the first colon followed by the segment between the first and second colon. -/
theorem splitChar_colon_structure (v : Str) (h : ':' ∈ v) :
    ∃ tail, splitChar ':' v = firstColonSeg v :: secondColonSeg v :: tail := by
  obtain ⟨t2, ht2⟩ := splitChar_head ':' (afterFirstColon v)
  have h1 : splitChar ':' v = firstColonSeg v :: splitChar ':' (afterFirstColon v) := by
    unfold splitChar firstColonSeg afterFirstColon
    rw [splitCharAux_of_mem ':' v [] h]
    simp
    rfl
  exact ⟨t2, by rw [h1, ht2]; rfl⟩

end Timertxt

namespace Timertxt

/-- C6 (amended): with an initialised (non-nil) tag map, the classification
loop of `ParseTimer` behaves exactly as `specProcessTokens`: tokens starting
with `@`/`+` go to contexts/projects; a token containing `:` stores (segment
before the first colon ↦ segment between the first and second colon, rest of
the token discarded, last write wins) exactly when those two segments are
non-empty, and is silently discarded otherwise — NOT appended to the notes;
all other tokens go to the notes buffer in order.  With the nil map that
`ParseTimer` actually passes, the first stored token instead panics. -/
theorem C6_token_classification :
    (∀ (tokens : List Str) (t : Timer) (m : List (Str × Str)) (notes : List Str),
      t.AdditionalTags = some m →
      parseTokens tokens t notes = .ok (specProcessTokens tokens t notes)) ∧
    (∀ (v : Str) (rest : List Str) (t : Timer) (notes : List Str),
      t.AdditionalTags = none →
      v.head? ≠ some '@' → v.head? ≠ some '+' →
      ':' ∈ v → firstColonSeg v ≠ [] → secondColonSeg v ≠ [] →
      parseTokens (v :: rest) t notes = .error .nilMapAssignment) := by
  constructor
  · intro tokens
    induction tokens with
    | nil => intro t m notes _; rfl
    | cons v rest ih =>
      intro t m notes ht
      by_cases h1 : v.head? = some '@'
      · simp only [parseTokens, specProcessTokens, h1, if_pos]
        exact ih _ m _ ht
      · by_cases h2 : v.head? = some '+'
        · simp only [parseTokens, specProcessTokens, h1, h2, if_pos, if_neg]
          exact ih _ m _ ht
        · by_cases hc : ':' ∈ v
          · obtain ⟨tail, hsplit⟩ := splitChar_colon_structure v hc
            by_cases hne : firstColonSeg v ≠ [] ∧ secondColonSeg v ≠ []
            · simp [parseTokens, specProcessTokens, h1, h2, hc, hsplit, ht, hne.1, hne.2]
              apply ih
              rfl
            · simp only [parseTokens, specProcessTokens, h1, h2, hc, hsplit, hne,
                if_pos, if_neg, if_true, if_false]
              exact ih _ m _ ht
          · simp only [parseTokens, specProcessTokens, h1, h2, hc, if_neg, if_false]
            exact ih _ m _ ht
  · intro v rest t notes ht h1 h2 hc hf hs
    obtain ⟨tail, hsplit⟩ := splitChar_colon_structure v hc
    simp only [parseTokens, h1, h2, hc, hsplit, ht, hf, hs, ne_eq, and_true, true_and,
      if_pos, if_neg, if_true, not_false_iff]

/-- Witness for C6 with an initialised map at a concrete token list. -/
theorem C6_token_classification_witness :
    parseTokens [['a'], ['@', 'h'], ['k', ':', 'v', ':', 'w'], ['b', ':']]
        { AdditionalTags := some [] } []
      = .ok (specProcessTokens [['a'], ['@', 'h'], ['k', ':', 'v', ':', 'w'], ['b', ':']]
          { AdditionalTags := some [] } []) :=
  C6_token_classification.1 [['a'], ['@', 'h'], ['k', ':', 'v', ':', 'w'], ['b', ':']]
    { AdditionalTags := some [] } [] [] rfl

end Timertxt

namespace Timertxt

/-! ## Load lemmas for C8 -/

/-- A line that trims to empty is skipped and consumes no id. -/
theorem loadLinesFrom_blank_skip (b : Str) (hb : trimChars loadCutset b = []) :
    ∀ (pre post : List Str) (id : Int),
      loadLinesFrom (pre ++ b :: post) id = loadLinesFrom (pre ++ post) id := by
  intro pre
  induction pre with
  | nil => intro post id; simp [loadLinesFrom, hb]
  | cons p pre ih =>
    intro post id
    simp only [List.cons_append, loadLinesFrom, List.append_eq, ih]

/-- Ids are assigned sequentially from the starting counter. -/
theorem loadLinesFrom_ids :
    ∀ (lines : List Str) (id : Int) (ts : TimerList),
      loadLinesFrom lines id = .ok ts →
      ∀ i (h : i < ts.length), (ts.get ⟨i, h⟩).Id = id + i := by
  intro lines
  induction lines with
  | nil =>
    intro id ts hts i hi
    simp only [loadLinesFrom] at hts
    injection hts with h
    subst h
    exact absurd hi (by simp)
  | cons line rest ih =>
    intro id ts hts i hi
    simp only [loadLinesFrom] at hts
    by_cases hb : trimChars loadCutset line = []
    · rw [if_pos hb] at hts
      exact ih id ts hts i hi
    · rw [if_neg hb] at hts
      cases hpt : ParseTimer (trimChars loadCutset line) with
      | error e => rw [hpt] at hts; cases hts
      | ok timer =>
        rw [hpt] at hts
        cases hrest : loadLinesFrom rest (id + 1) with
        | error e => rw [hrest] at hts; cases hts
        | ok l =>
          rw [hrest] at hts
          injection hts with h
          subst h
          cases i with
          | zero => simp
          | succ n =>
            have hn : n < l.length := by simpa using hi
            have hv := ih (id + 1) l hrest n hn
            exact hv.trans (by omega)

/-- The first non-blank line that fails to parse aborts the load with its
error, whatever follows it. -/
theorem loadLinesFrom_abort :
    ∀ (pre : List Str) (id : Int) (bad : Str) (post : List Str) (e : GoErr),
      (∀ l ∈ pre, trimChars loadCutset l = []
        ∨ ∃ t, ParseTimer (trimChars loadCutset l) = .ok t) →
      trimChars loadCutset bad ≠ [] →
      ParseTimer (trimChars loadCutset bad) = .error e →
      loadLinesFrom (pre ++ bad :: post) id = .error e := by
  intro pre
  induction pre with
  | nil =>
    intro id bad post e _ hnb hbe
    simp [loadLinesFrom, hnb, hbe]
  | cons p pre ih =>
    intro id bad post e hpre hnb hbe
    have hp := hpre p (by simp)
    simp only [List.cons_append, loadLinesFrom]
    rcases hp with hblank | ⟨t, hok⟩
    · rw [if_pos hblank]
      exact ih id bad post e (fun l hl => hpre l (by simp [hl])) hnb hbe
    · have hnp : trimChars loadCutset p ≠ [] := by
        intro hc
        rw [hc] at hok
        have hpe : ParseTimer [] = .error .indexOutOfRange := by decide
        rw [hpe] at hok
        cases hok
      rw [if_neg hnp, hok]
      simp only [List.append_eq]
      rw [ih (id + 1) bad post e (fun l hl => hpre l (by simp [hl])) hnb hbe]

/-- C8: `LoadFromFile` replaces the previous contents entirely, skips lines
that are blank after trimming (with the load cutset, tab/newline/carriage
return), assigns sequential ids from 1 in file order with blank lines
consuming no id, aborts the whole load with the error of the first
non-blank line that fails to parse, and on the two-entries-around-a-blank
example produces exactly a 2-entry collection with ids 1 and 2. -/
theorem C8_load_semantics :
    (∀ (old1 old2 : TimerList) (lines : List Str),
      LoadFromFile old1 lines = LoadFromFile old2 lines) ∧
    (∀ (old : TimerList) (pre post : List Str) (b : Str),
      trimChars loadCutset b = [] →
      LoadFromFile old (pre ++ b :: post) = LoadFromFile old (pre ++ post)) ∧
    (∀ (old : TimerList) (lines : List Str) (ts : TimerList),
      LoadFromFile old lines = .ok ts →
      ∀ i (h : i < ts.length), (ts.get ⟨i, h⟩).Id = i + 1) ∧
    (∀ (old : TimerList) (pre : List Str) (bad : Str) (post : List Str) (e : GoErr),
      (∀ l ∈ pre, trimChars loadCutset l = []
        ∨ ∃ t, ParseTimer (trimChars loadCutset l) = .ok t) →
      trimChars loadCutset bad ≠ [] →
      ParseTimer (trimChars loadCutset bad) = .error e →
      LoadFromFile old (pre ++ bad :: post) = .error e) ∧
    (LoadFromFile [] c8Lines).map (fun ts => ts.map fun t => t.Id) = .ok [1, 2] := by
  refine ⟨fun _ _ _ => rfl, ?_, ?_, ?_, by decide⟩
  · intro _ pre post b hb
    exact loadLinesFrom_blank_skip b hb pre post 1
  · intro _ lines ts hts i hi
    exact (loadLinesFrom_ids lines 1 ts hts i hi).trans (by omega)
  · intro _ pre bad post e h1 h2 h3
    exact loadLinesFrom_abort pre 1 bad post e h1 h2 h3

/-- Witness for C8: a blank first line is skipped and the unparsable second
line aborts the load with its start-date parse error. -/
theorem C8_load_semantics_witness :
    LoadFromFile [] ([[]] ++ ['z'] :: []) = .error .startDateParse :=
  C8_load_semantics.2.2.2.1 [] [[]] ['z'] [] .startDateParse
    (by
      intro l hl
      rw [List.mem_singleton] at hl
      subst hl
      exact Or.inl (by decide))
    (by decide) (by decide)

end Timertxt

namespace Timertxt

/-! ## Lexicographic order lemmas for C10 -/

/-- `lexLe` is total. -/
theorem lexLe_total : ∀ a b : Str, lexLe a b = true ∨ lexLe b a = true := by
  intro a
  induction a with
  | nil => intro b; left; rfl
  | cons x as ih =>
    intro b
    cases b with
    | nil => right; rfl
    | cons y bs =>
      by_cases hxy : x = y
      · subst hxy
        rcases ih bs with h | h
        · left; simp [lexLe, h]
        · right; simp [lexLe, h]
      · rcases lt_trichotomy x y with hlt | heq | hgt
        · left; simp [lexLe, hxy, hlt]
        · exact absurd heq hxy
        · right; simp [lexLe, Ne.symm hxy, hgt]

/-- `lexLe` is transitive. -/
theorem lexLe_trans : ∀ a b c : Str,
    lexLe a b = true → lexLe b c = true → lexLe a c = true := by
  intro a
  induction a with
  | nil => intro b c _ _; rfl
  | cons x as ih =>
    intro b c hab hbc
    cases b with
    | nil => simp [lexLe] at hab
    | cons y bs =>
      cases c with
      | nil => simp [lexLe] at hbc
      | cons z cs =>
        simp only [lexLe] at hab hbc ⊢
        by_cases hxy : x = y
        · subst hxy
          by_cases hyz : x = z
          · subst hyz
            simp only [if_pos rfl] at hab hbc ⊢
            exact ih bs cs hab hbc
          · simp only [hyz, if_neg, if_pos rfl] at hab hbc ⊢
            simpa using hbc
        · by_cases hyz : y = z
          · subst hyz
            simp only [hxy, if_neg, if_pos rfl] at hab hbc ⊢
            simpa using hab
          · simp only [hxy, hyz, if_neg] at hab hbc
            have hx : x < y := by simpa using hab
            have hy : y < z := by simpa using hbc
            have hxz : x < z := lt_trans hx hy
            simp [hxz.ne, hxz]

/-- String insertion produces a permutation of consing. -/
theorem insertLe_perm (a : Str) :
    ∀ l : List Str, (insertLe lexLe a l).Perm (a :: l) := by
  intro l
  induction l with
  | nil => simp [insertLe]
  | cons b l ih =>
    by_cases h : lexLe a b = true
    · simp [insertLe, h]
    · simpa [insertLe, h] using (ih.cons b).trans (List.Perm.swap a b l)

/-- `sortStrings` permutes its input. -/
theorem sortStrings_perm : ∀ l : List Str, (sortStrings l).Perm l := by
  intro l
  induction l with
  | nil => simp [sortStrings]
  | cons a l ih => exact (insertLe_perm a (sortStrings l)).trans (ih.cons a)

/-- String insertion preserves sortedness. -/
theorem insertLe_pairwise (a : Str) :
    ∀ l : List Str, List.Pairwise (fun x y => lexLe x y = true) l →
      List.Pairwise (fun x y => lexLe x y = true) (insertLe lexLe a l) := by
  intro l
  induction l with
  | nil => intro _; simp [insertLe]
  | cons b l ih =>
    intro hp
    rcases List.pairwise_cons.mp hp with ⟨hbl, hl⟩
    by_cases hab : lexLe a b = true
    · simp only [insertLe, hab, if_pos]
      refine List.pairwise_cons.mpr ⟨?_, hp⟩
      intro y hy
      rcases List.mem_cons.mp hy with rfl | hyl
      · exact hab
      · exact lexLe_trans a b y hab (hbl y hyl)
    · simp only [insertLe, hab, if_neg]
      refine List.pairwise_cons.mpr ⟨?_, ih hl⟩
      intro y hy
      have hy2 := (insertLe_perm a l).mem_iff.mp hy
      rcases List.mem_cons.mp hy2 with rfl | hyl
      · rcases lexLe_total y b with h | h
        · exact absurd h hab
        · exact h
      · exact hbl y hyl

/-- `sortStrings` sorts: its output is pairwise `lexLe`-ordered. -/
theorem sortStrings_pairwise :
    ∀ l : List Str, List.Pairwise (fun x y => lexLe x y = true) (sortStrings l) := by
  intro l
  induction l with
  | nil => simp [sortStrings]
  | cons a l ih => exact insertLe_pairwise a (sortStrings l) ih

/-- C10: formatting is not observably pure.  After `Timer.String()` the
receiver as observed by the caller has its `Contexts` and `Projects` sorted
lexicographically ascending (a permutation of the originals), every other
field unchanged; and after `TimerList.String()` every element of the list
has sorted `Contexts` and `Projects`. -/
theorem C10_string_sorts_receiver :
    (∀ t : Timer,
      ((timerString t).2.Contexts.Perm t.Contexts ∧
        List.Pairwise (fun x y => lexLe x y = true) (timerString t).2.Contexts) ∧
      ((timerString t).2.Projects.Perm t.Projects ∧
        List.Pairwise (fun x y => lexLe x y = true) (timerString t).2.Projects) ∧
      (timerString t).2.Id = t.Id ∧
      (timerString t).2.Original = t.Original ∧
      (timerString t).2.StartDate = t.StartDate ∧
      (timerString t).2.FinishDate = t.FinishDate ∧
      (timerString t).2.Finished = t.Finished ∧
      (timerString t).2.Notes = t.Notes ∧
      (timerString t).2.AdditionalTags = t.AdditionalTags) ∧
    (∀ (l : TimerList) (u : Timer), u ∈ (timerListString l).2 →
      List.Pairwise (fun x y => lexLe x y = true) u.Contexts ∧
      List.Pairwise (fun x y => lexLe x y = true) u.Projects) := by
  constructor
  · intro t
    exact ⟨⟨sortStrings_perm t.Contexts, sortStrings_pairwise t.Contexts⟩,
      ⟨sortStrings_perm t.Projects, sortStrings_pairwise t.Projects⟩,
      rfl, rfl, rfl, rfl, rfl, rfl, rfl⟩
  · intro l u hu
    rcases List.mem_map.mp hu with ⟨t, _, rfl⟩
    exact ⟨sortStrings_pairwise t.Contexts, sortStrings_pairwise t.Projects⟩

/-- Witness for C10 (the collection part has a membership hypothesis):
after serialising a one-element list the element has sorted slices. -/
theorem C10_string_sorts_receiver_witness :
    List.Pairwise (fun x y => lexLe x y = true) (sortedReceiver c7EmptyNotesCtx).Contexts ∧
    List.Pairwise (fun x y => lexLe x y = true) (sortedReceiver c7EmptyNotesCtx).Projects :=
  C10_string_sorts_receiver.2 [c7EmptyNotesCtx] (sortedReceiver c7EmptyNotesCtx)
    (by simp [timerListString])

end Timertxt

namespace Timertxt

/-! ## Space-shape lemmas for C7 -/

/-- A double space in a concatenation is a double space in one part or a
space meeting a space at the border. -/
theorem hasDoubleSpace_append (xs ys : Str) :
    hasDoubleSpace (xs ++ ys) = true ↔
      (hasDoubleSpace xs = true ∨ hasDoubleSpace ys = true ∨
        (xs.getLast? = some ' ' ∧ ys.head? = some ' ')) := by
  induction xs with
  | nil => simp [hasDoubleSpace]
  | cons a xs ih =>
    cases xs with
    | nil =>
      cases ys with
      | nil => simp [hasDoubleSpace]
      | cons c ys' =>
        simp only [List.cons_append, List.nil_append, hasDoubleSpace,
          Bool.or_eq_true, Bool.and_eq_true, decide_eq_true_eq,
          List.getLast?_singleton, List.head?_cons, Option.some.injEq]
        tauto
    | cons b xs' =>
      simp only [List.cons_append, List.append_eq, hasDoubleSpace, Bool.or_eq_true,
        Bool.and_eq_true, decide_eq_true_eq] at ih ⊢
      rw [List.getLast?_cons_cons, ih]
      tauto

/-- No double space appears when neither part has one and the border is not
two spaces. -/
theorem clean_append (s1 s2 : Str)
    (h1 : hasDoubleSpace s1 = false) (h2 : hasDoubleSpace s2 = false)
    (hb : s1.getLast? ≠ some ' ' ∨ s2.head? ≠ some ' ') :
    hasDoubleSpace (s1 ++ s2) = false := by
  cases hv : hasDoubleSpace (s1 ++ s2) with
  | false => rfl
  | true =>
    rcases (hasDoubleSpace_append s1 s2).mp hv with h | h | ⟨ha, hbb⟩
    · rw [h1] at h; cases h
    · rw [h2] at h; cases h
    · rcases hb with hb | hb
      · exact absurd ha hb
      · exact absurd hbb hb

/-- Clean concatenation of two clean parts that do not end in a space. -/
theorem clean_append_full (s1 s2 : Str)
    (h1 : hasDoubleSpace s1 = false) (h2 : hasDoubleSpace s2 = false)
    (hl1 : s1.getLast? ≠ some ' ') (hl2 : s2.getLast? ≠ some ' ') :
    hasDoubleSpace (s1 ++ s2) = false ∧ (s1 ++ s2).getLast? ≠ some ' ' := by
  refine ⟨clean_append s1 s2 h1 h2 (Or.inl hl1), ?_⟩
  cases s2 with
  | nil => simpa using hl1
  | cons c s2' =>
    rw [List.getLast?_append_of_ne_nil s1 (by simp)]
    exact hl2

/-- Prepending a non-space character never creates a double space. -/
theorem hds_cons_of_ne (a : Char) (ha : a ≠ ' ') :
    ∀ Z : Str, hasDoubleSpace (a :: Z) = hasDoubleSpace Z := by
  intro Z
  cases Z with
  | nil => rfl
  | cons b Z' => simp [hasDoubleSpace, ha]

/-- A space-free string has no double space. -/
theorem hds_of_not_mem : ∀ s : Str, ' ' ∉ s → hasDoubleSpace s = false := by
  intro s
  induction s with
  | nil => intro _; rfl
  | cons a s ih =>
    intro h
    have ha : a ≠ ' ' := fun he => h (by simp [he])
    have ih2 := ih (fun hm => h (List.mem_cons_of_mem a hm))
    rw [hds_cons_of_ne a ha s]
    exact ih2

/-- A space-free string does not end in a space. -/
theorem getLast?_not_space : ∀ s : Str, ' ' ∉ s → s.getLast? ≠ some ' ' := by
  intro s hs hc
  have hmem : ' ' ∈ s.getLast? := by rw [hc]; rfl
  obtain ⟨h, hx⟩ := List.mem_getLast?_eq_getLast hmem
  exact hs (hx ▸ List.getLast_mem h)

/-- A space-free string does not begin with a space. -/
theorem head?_not_space : ∀ s : Str, ' ' ∉ s → s.head? ≠ some ' ' := by
  intro s hs hc
  cases s with
  | nil => cases hc
  | cons a s' =>
    simp only [List.head?_cons, Option.some.injEq] at hc
    exact hs (by simp [hc])

/-- Prepending a space to a string that does not begin with a space never
creates a double space. -/
theorem hds_cons_space (X : Str) (hX : hasDoubleSpace X = false)
    (hh : X.head? ≠ some ' ') : hasDoubleSpace (' ' :: X) = false := by
  cases X with
  | nil => rfl
  | cons c X' =>
    have hc : ¬(c = ' ') := by
      intro he
      exact hh (by simp [he])
    simp only [hasDoubleSpace] at hX ⊢
    rw [hX]
    simp [hc]

/-- The last character of a cons with a non-empty tail is that of the tail. -/
theorem getLast?_cons_ne (a : Char) : ∀ X : Str, X ≠ [] →
    (a :: X).getLast? = X.getLast? := by
  intro X hX
  cases X with
  | nil => exact absurd rfl hX
  | cons b X' => exact List.getLast?_cons_cons

end Timertxt

namespace Timertxt

/-- Digit characters are never the space character. -/
theorem digitChar_ne_space (n : Nat) : digitChar n ≠ ' ' := by
  have hlt : n % 10 < 10 := Nat.mod_lt _ (by norm_num)
  unfold digitChar
  set k := n % 10 with hk
  interval_cases k <;> decide

/-- Two-digit fields contain no space. -/
theorem pad2_no_space (n : Nat) : ' ' ∉ pad2 n := by
  intro h
  rcases List.mem_cons.mp h with h | h
  · exact digitChar_ne_space _ h.symm
  · rcases List.mem_cons.mp h with h | h
    · exact digitChar_ne_space _ h.symm
    · cases h

/-- Four-digit fields contain no space. -/
theorem pad4_no_space (n : Nat) : ' ' ∉ pad4 n := by
  intro h
  rcases List.mem_cons.mp h with h | h
  · exact digitChar_ne_space _ h.symm
  · rcases List.mem_cons.mp h with h | h
    · exact digitChar_ne_space _ h.symm
    · rcases List.mem_cons.mp h with h | h
      · exact digitChar_ne_space _ h.symm
      · rcases List.mem_cons.mp h with h | h
        · exact digitChar_ne_space _ h.symm
        · cases h

/-- The zone-offset suffix contains no space. -/
theorem fmtOffset_no_space (off : Int) : ' ' ∉ fmtOffset off := by
  intro hm
  by_cases hz : off = 0
  · simp [fmtOffset, hz] at hm
  · simp only [fmtOffset, hz, if_neg, ite_false] at hm
    rcases List.mem_cons.mp hm with h | h
    · split at h <;> exact absurd h (by decide)
    · rcases List.mem_append.mp h with h | h
      · exact pad2_no_space _ h
      · rcases List.mem_cons.mp h with h | h
        · exact absurd h (by decide)
        · exact pad2_no_space _ h

/-- A punctuation character followed by a two-digit field has no space. -/
theorem punct_pad2_no_space (c : Char) (hc : c ≠ ' ') (n : Nat) :
    ' ' ∉ (c :: pad2 n) := by
  intro h
  rcases List.mem_cons.mp h with h | h
  · exact hc h.symm
  · exact pad2_no_space n h

/-- Every character of a formatted RFC 3339 timestamp is a non-space. -/
theorem fmt_no_space (t : GoTime) : ' ' ∉ fmtRFC3339 t := by
  intro hm
  simp only [fmtRFC3339] at hm
  rcases List.mem_append.mp hm with h | h
  · rcases List.mem_append.mp h with h | h
    · rcases List.mem_append.mp h with h | h
      · rcases List.mem_append.mp h with h | h
        · rcases List.mem_append.mp h with h | h
          · rcases List.mem_append.mp h with h | h
            · exact pad4_no_space t.year h
            · exact punct_pad2_no_space '-' (by decide) t.month h
          · exact punct_pad2_no_space '-' (by decide) t.day h
        · exact punct_pad2_no_space 'T' (by decide) t.hour h
      · exact punct_pad2_no_space ':' (by decide) t.minute h
    · exact punct_pad2_no_space ':' (by decide) t.second h
  · exact fmtOffset_no_space t.offMin h

/-- Formatted timestamps are non-empty. -/
theorem fmt_ne_nil (t : GoTime) : fmtRFC3339 t ≠ [] := by
  simp [fmtRFC3339, pad4]

/-- A successful map read returns a stored binding. -/
theorem mapLookup_mem :
    ∀ (m : List (Str × Str)) (k v : Str), mapLookup m k = some v → (k, v) ∈ m := by
  intro m
  induction m with
  | nil => intro k v h; cases h
  | cons kv rest ih =>
    obtain ⟨k0, v0⟩ := kv
    intro k v h
    by_cases hk : k0 = k
    · rw [mapLookup, if_pos hk] at h
      injection h with h
      subst h
      subst hk
      exact List.mem_cons_self _ _
    · rw [mapLookup, if_neg hk] at h
      exact List.mem_cons_of_mem _ (ih k v h)

/-- Keys of the map have a stored value. -/
theorem mapLookup_isSome_of_mem :
    ∀ (m : List (Str × Str)) (k : Str), k ∈ m.map Prod.fst →
      ∃ v, mapLookup m k = some v := by
  intro m
  induction m with
  | nil => intro k h; cases h
  | cons kv rest ih =>
    obtain ⟨k0, v0⟩ := kv
    intro k h
    by_cases hk : k0 = k
    · exact ⟨v0, by rw [mapLookup, if_pos hk]⟩
    · have h2 : k = k0 ∨ k ∈ rest.map Prod.fst := List.mem_cons.mp h
      rcases h2 with h1 | h1
      · exact absurd h1.symm hk
      · obtain ⟨v, hv⟩ := ih k h1
        exact ⟨v, by rw [mapLookup, if_neg hk]; exact hv⟩

/-- A flattened list of sections, each a space followed by a non-empty
space-free body, has no double space and does not end in a space. -/
theorem flatten_sections_clean (f : Str → Str) :
    ∀ l : List Str,
      (∀ x ∈ l, ∃ w, f x = ' ' :: w ∧ w ≠ [] ∧ ' ' ∉ w) →
      hasDoubleSpace ((l.map f).flatten) = false ∧
      ((l.map f).flatten).getLast? ≠ some ' ' := by
  intro l
  induction l with
  | nil => exact fun _ => ⟨rfl, by simp⟩
  | cons x l ih =>
    intro hf
    obtain ⟨w, hfx, hw, hwm⟩ := hf x (by simp)
    obtain ⟨ih1, ih2⟩ := ih (fun y hy => hf y (by simp [hy]))
    have hwlast : w.getLast? ≠ some ' ' := getLast?_not_space w hwm
    have hfirst1 : hasDoubleSpace (' ' :: w) = false :=
      hds_cons_space w (hds_of_not_mem w hwm) (head?_not_space w hwm)
    have hfirstlast : (' ' :: w).getLast? ≠ some ' ' := by
      rw [getLast?_cons_ne ' ' w hw]
      exact hwlast
    simp only [List.map_cons, List.flatten_cons, hfx]
    exact clean_append_full (' ' :: w) ((l.map f).flatten) hfirst1 ih1 hfirstlast ih2

end Timertxt

namespace Timertxt

/-- Composing the tail of a formatted timer: a clean prefix not ending in a
space, the mandatory separating space, non-empty clean notes, and three
clean sections, yield a text with no double space and no trailing space. -/
theorem text_tail_clean (A N C P T : Str)
    (hA1 : hasDoubleSpace A = false) (hA2 : A.getLast? ≠ some ' ')
    (hN : N ≠ []) (hN1 : hasDoubleSpace N = false)
    (hN2 : N.head? ≠ some ' ') (hN3 : N.getLast? ≠ some ' ')
    (hC1 : hasDoubleSpace C = false) (hC2 : C.getLast? ≠ some ' ')
    (hP1 : hasDoubleSpace P = false) (hP2 : P.getLast? ≠ some ' ')
    (hT1 : hasDoubleSpace T = false) (hT2 : T.getLast? ≠ some ' ') :
    hasDoubleSpace (A ++ [' '] ++ N ++ C ++ P ++ T) = false ∧
    (A ++ [' '] ++ N ++ C ++ P ++ T).getLast? ≠ some ' ' := by
  have s1 : hasDoubleSpace (A ++ [' ']) = false :=
    clean_append A [' '] hA1 rfl (Or.inl hA2)
  have s2 : hasDoubleSpace (A ++ [' '] ++ N) = false :=
    clean_append (A ++ [' ']) N s1 hN1 (Or.inr hN2)
  have s2l : (A ++ [' '] ++ N).getLast? ≠ some ' ' := by
    rw [List.getLast?_append_of_ne_nil (A ++ [' ']) hN]
    exact hN3
  have s3 := clean_append_full (A ++ [' '] ++ N) C s2 hC1 s2l hC2
  have s4 := clean_append_full (A ++ [' '] ++ N ++ C) P s3.1 hP1 s3.2 hP2
  exact clean_append_full (A ++ [' '] ++ N ++ C ++ P) T s4.1 hT1 s4.2 hT2

/-- C7 (amended): for a timer whose Notes is non-empty with no leading,
trailing or doubled spaces, and whose contexts, projects, tag keys and tag
values are space-free, the formatted text has no two consecutive spaces and
no trailing space; empty optional sections contribute nothing.  (With empty
Notes the claim fails: the mandatory space after the start date becomes a
trailing or doubled space — see the counterexample.) -/
theorem C7_no_stray_spaces (t : Timer)
    (hn0 : t.Notes ≠ [])
    (hn1 : hasDoubleSpace t.Notes = false)
    (hn2 : t.Notes.head? ≠ some ' ')
    (hn3 : t.Notes.getLast? ≠ some ' ')
    (hc : ∀ c ∈ t.Contexts, ' ' ∉ c)
    (hp : ∀ p_ ∈ t.Projects, ' ' ∉ p_)
    (htg : ∀ kv ∈ t.AdditionalTags.getD [], ' ' ∉ kv.1 ∧ ' ' ∉ kv.2) :
    hasDoubleSpace (timerText t) = false ∧ (timerText t).getLast? ≠ some ' ' := by
  obtain ⟨id, orig, sd, fd, fin, notes, projs, ctxs, tags⟩ := t
  simp only at hn0 hn1 hn2 hn3 hc hp htg
  have hCsec := flatten_sections_clean (fun c => ' ' :: '@' :: c) (sortStrings ctxs) (by
    intro x hx
    refine ⟨'@' :: x, rfl, by simp, ?_⟩
    intro hm
    rcases List.mem_cons.mp hm with h | h
    · exact absurd h (by decide)
    · exact hc x ((sortStrings_perm ctxs).mem_iff.mp hx) h)
  have hPsec := flatten_sections_clean (fun q => ' ' :: '+' :: q) (sortStrings projs) (by
    intro x hx
    refine ⟨'+' :: x, rfl, by simp, ?_⟩
    intro hm
    rcases List.mem_cons.mp hm with h | h
    · exact absurd h (by decide)
    · exact hp x ((sortStrings_perm projs).mem_iff.mp hx) h)
  have hTsec := flatten_sections_clean
    (fun k => ' ' :: (k ++ ':' :: (mapLookup (tags.getD []) k).getD []))
    (sortStrings ((tags.getD []).map Prod.fst)) (by
    intro x hx
    refine ⟨x ++ ':' :: (mapLookup (tags.getD []) x).getD [], rfl, by simp, ?_⟩
    have hxk : x ∈ (tags.getD []).map Prod.fst := (sortStrings_perm _).mem_iff.mp hx
    obtain ⟨v, hv⟩ := mapLookup_isSome_of_mem _ x hxk
    have hkv : (x, v) ∈ tags.getD [] := mapLookup_mem _ x v hv
    have hsp := htg (x, v) hkv
    intro hm
    rcases List.mem_append.mp hm with h | h
    · exact hsp.1 h
    · rcases List.mem_cons.mp h with h | h
      · exact absurd h (by decide)
      · rw [hv] at h
        exact hsp.2 (by simpa using h))
  have hF1 : hasDoubleSpace (fmtRFC3339 sd) = false :=
    hds_of_not_mem _ (fmt_no_space sd)
  have hF2 : (fmtRFC3339 sd).getLast? ≠ some ' ' :=
    getLast?_not_space _ (fmt_no_space sd)
  have hF3 : (fmtRFC3339 sd).head? ≠ some ' ' :=
    head?_not_space _ (fmt_no_space sd)
  cases fin with
  | false =>
    simp only [timerText, Bool.false_eq_true, if_false, List.nil_append]
    exact text_tail_clean (fmtRFC3339 sd) notes _ _ _ hF1 hF2 hn0 hn1 hn2 hn3
      hCsec.1 hCsec.2 hPsec.1 hPsec.2 hTsec.1 hTsec.2
  | true =>
    by_cases hz : GoTime.isZero fd = true
    · simp only [timerText, if_true, hz, not_true, if_false, List.append_nil]
      have hpre1 : hasDoubleSpace (['x', ' '] ++ fmtRFC3339 sd) = false := by
        rw [show (['x', ' '] ++ fmtRFC3339 sd) = 'x' :: ' ' :: fmtRFC3339 sd from rfl]
        rw [hds_cons_of_ne 'x' (by decide)]
        exact hds_cons_space _ hF1 hF3
      have hpre2 : (['x', ' '] ++ fmtRFC3339 sd).getLast? ≠ some ' ' := by
        rw [List.getLast?_append_of_ne_nil _ (fmt_ne_nil sd)]
        exact hF2
      exact text_tail_clean (['x', ' '] ++ fmtRFC3339 sd) notes _ _ _ hpre1 hpre2
        hn0 hn1 hn2 hn3 hCsec.1 hCsec.2 hPsec.1 hPsec.2 hTsec.1 hTsec.2
    · simp only [timerText, if_true, hz, not_false_iff, if_pos]
      have hFf1 : hasDoubleSpace (fmtRFC3339 fd) = false :=
        hds_of_not_mem _ (fmt_no_space fd)
      have hFf2 : (fmtRFC3339 fd).getLast? ≠ some ' ' :=
        getLast?_not_space _ (fmt_no_space fd)
      have hFf3 : (fmtRFC3339 fd).head? ≠ some ' ' :=
        head?_not_space _ (fmt_no_space fd)
      have hpre1 : hasDoubleSpace (['x', ' '] ++ (fmtRFC3339 fd ++ [' '])
          ++ fmtRFC3339 sd) = false := by
        rw [List.append_assoc (['x', ' '] : Str), List.append_assoc (fmtRFC3339 fd)]
        rw [show ((['x', ' '] : Str) ++ (fmtRFC3339 fd ++ ([' '] ++ fmtRFC3339 sd)))
          = 'x' :: ' ' :: (fmtRFC3339 fd ++ (' ' :: fmtRFC3339 sd)) from rfl]
        rw [hds_cons_of_ne 'x' (by decide)]
        apply hds_cons_space
        · apply clean_append
          · exact hFf1
          · exact hds_cons_space _ hF1 hF3
          · exact Or.inl hFf2
        · rw [List.head?_append_of_ne_nil (fmtRFC3339 fd) (fmt_ne_nil fd)]
          exact hFf3
      have hpre2 : ((['x', ' '] ++ (fmtRFC3339 fd ++ [' '])
          ++ fmtRFC3339 sd)).getLast? ≠ some ' ' := by
        rw [List.getLast?_append_of_ne_nil _ (fmt_ne_nil sd)]
        exact hF2
      exact text_tail_clean (['x', ' '] ++ (fmtRFC3339 fd ++ [' ']) ++ fmtRFC3339 sd)
        notes _ _ _ hpre1 hpre2 hn0 hn1 hn2 hn3
        hCsec.1 hCsec.2 hPsec.1 hPsec.2 hTsec.1 hTsec.2

/-- Witness for C7 at a concrete well-formed timer. -/
theorem C7_no_stray_spaces_witness :
    hasDoubleSpace (timerText c7GoodTimer) = false ∧
    (timerText c7GoodTimer).getLast? ≠ some ' ' :=
  C7_no_stray_spaces c7GoodTimer (by decide) (by decide) (by decide) (by decide)
    (by decide) (by decide) (by decide)

end Timertxt
